import Mathlib

/-!
Verification of the allocation and settlement engine of the
`coharvest-bid-pool` CosmWasm contract (`src/contracts/coharvest-bid-pool`).

The embedding follows the Rust source:

* `cosmwasm_std::Uint128` values are modelled as `Nat`; the arithmetic
  operations used by the contract panic on overflow, so each checked
  operation returns `Except CalcErr Nat` with `.error .overflow` standing
  for the overflow panic.
* `cosmwasm_std::Decimal` is a fixed-point decimal with 18 fractional
  digits, stored as a `Uint128` count of atomics.  A `Decimal` is modelled
  by its atomics (a `Nat`); `DEC = 10^18` is `Decimal::DECIMAL_FRACTIONAL`.
  `Uint128 * Decimal` (and `Decimal * Uint128`) is `mul_floor`:
  `a * atomics / 10^18`, truncated, panicking if the result does not fit in
  128 bits.  `Decimal::from_ratio(a, b)` produces `a * 10^18 / b` atomics,
  panicking if `b = 0` (modelled by `.error .divZero`) or on overflow.
* A Rust panic aborts the whole contract call with no state change, as does
  a returned `Err`; panics inside `process_calc_distribution_amount` are
  kept apart from returned `ContractError` values by the `CalcErr` type.
-/

/-- `Decimal::DECIMAL_FRACTIONAL = 10^18`: one unit in `Decimal` atomics. -/
def DEC : Nat := 10 ^ 18

/-- `Uint128::MAX + 1`. -/
def U128 : Nat := 2 ^ 128

/-- The two ways fixed-point arithmetic can panic in the engine. -/
inductive CalcErr where
  | divZero
  | overflow
deriving DecidableEq, Repr

/-- `Uint128 * Decimal` / `Decimal * Uint128` (`mul_floor`): truncated
`a * d / 10^18`, panicking when the result exceeds `Uint128::MAX`. -/
def mulFloorU (a d : Nat) : Except CalcErr Nat :=
  if a * d / DEC < U128 then .ok (a * d / DEC) else .error .overflow

/-- `Decimal + Decimal` on atomics, panicking on overflow
(used for `Decimal::one() + premium_rate`). -/
def addDec (a b : Nat) : Except CalcErr Nat :=
  if a + b < U128 then .ok (a + b) else .error .overflow

/-- `Uint128 + Uint128`, panicking on overflow. -/
def addU (a b : Nat) : Except CalcErr Nat :=
  if a + b < U128 then .ok (a + b) else .error .overflow

/-- `Decimal::from_ratio(a, b)`: atomics `a * 10^18 / b`; panics with a
divide-by-zero when `b = 0`, or with overflow when the atomics do not fit. -/
def fromRatio (a b : Nat) : Except CalcErr Nat :=
  if b = 0 then .error .divZero
  else if a * DEC / b < U128 then .ok (a * DEC / b) else .error .overflow

/-- `state.rs`: per-`(round, slot)` aggregate (`struct BidPool`).
All `Decimal` fields are stored as atomics. -/
structure BidPool where
  slot : Nat
  total_bid_amount : Nat
  premium_rate : Nat
  index_snapshot : Nat
  received_per_token : Nat
deriving DecidableEq, Repr

/-- The truncated "desired amount" of a slot, exactly as computed in
`process_calc_distribution_amount`:
`total_bid_amount * exchange_rate * (Decimal::one() + premium_rate)` where
both multiplications are `Uint128 * Decimal` truncations. -/
def desiredAmount (exchange_rate : Nat) (p : BidPool) : Nat :=
  p.total_bid_amount * exchange_rate / DEC * (DEC + p.premium_rate) / DEC

/-- `bid.rs` lines 333-337: the distributed amount granted to a slot is its
desired amount, capped by the remaining distribution budget. -/
def actualAmount (desired_amount dist : Nat) : Nat :=
  if desired_amount ≤ dist then desired_amount else dist

/-- One iteration of the allocation loop body of
`process_calc_distribution_amount` (`bid.rs` lines 330-345), for a pool with
nonzero `total_bid_amount`: computes the desired amount, caps it by the
remaining budget, derives `index_snapshot` and `received_per_token`, adds the
matched amount and subtracts the consumed budget.  Returns the updated pool,
the remaining budget and the updated running total. -/
def processOne (exchange_rate : Nat) (p : BidPool) (dist matched : Nat) :
    Except CalcErr (BidPool × Nat × Nat) :=
  match mulFloorU p.total_bid_amount exchange_rate with
  | .error e => .error e
  | .ok s1 =>
    match addDec DEC p.premium_rate with
    | .error e => .error e
    | .ok onePlus =>
      match mulFloorU s1 onePlus with
      | .error e => .error e
      | .ok desired_amount =>
        match fromRatio (actualAmount desired_amount dist) desired_amount with
        | .error e => .error e
        | .ok index_snapshot =>
          match fromRatio (actualAmount desired_amount dist) p.total_bid_amount with
          | .error e => .error e
          | .ok received_per_token =>
            match mulFloorU p.total_bid_amount index_snapshot with
            | .error e => .error e
            | .ok add =>
              match addU matched add with
              | .error e => .error e
              | .ok matched2 =>
                .ok ({ p with index_snapshot := index_snapshot,
                              received_per_token := received_per_token },
                     dist - actualAmount desired_amount dist, matched2)

/-- The allocation loop of `process_calc_distribution_amount`
(`bid.rs` lines 325-350): pools with zero deposits are skipped unchanged;
otherwise the body runs and, when the remaining budget reaches exactly zero,
the loop breaks, leaving all later pools untouched. -/
def processPools (exchange_rate : Nat) :
    List BidPool → Nat → Nat → Except CalcErr (List BidPool × Nat × Nat)
  | [], dist, matched => .ok ([], dist, matched)
  | p :: rest, dist, matched =>
    if p.total_bid_amount = 0 then
      match processPools exchange_rate rest dist matched with
      | .error e => .error e
      | .ok (ps, d, t) => .ok (p :: ps, d, t)
    else
      match processOne exchange_rate p dist matched with
      | .error e => .error e
      | .ok (p2, dist2, matched2) =>
        if dist2 = 0 then .ok (p2 :: rest, dist2, matched2)
        else
          match processPools exchange_rate rest dist2 matched2 with
          | .error e => .error e
          | .ok (ps, d, t) => .ok (p2 :: ps, d, t)

/-- `process_calc_distribution_amount` (`bid.rs` lines 318-353).  The Rust
function mutates the pool vector and the budget and returns the total matched
amount; the translation returns the final pools, the remaining budget and the
total matched amount (with `total_matched` starting at zero). -/
def process_calc_distribution_amount (bid_pools : List BidPool)
    (distribution_amount : Nat) (exchange_rate : Nat) :
    Except CalcErr (List BidPool × Nat × Nat) :=
  processPools exchange_rate bid_pools distribution_amount 0

/-- **C3.** Concrete boundary-slot scenario: two slot pools (slots 10 and
20), each holding a 1000-unit deposit, premium rates 10% and 20% (`10^17` and
`2·10^17` atomics), exchange rate 0.01 (`10^16` atomics) and budget 20.
Slot 10 ends with fill ratio 1 (`DEC`) and payout rate 11/1000
(`11·10^15` atomics = 0.011); slot 20 ends with fill ratio 3/4
(`75·10^16` atomics) and payout rate 9/1000 (`9·10^15` atomics); the
remaining budget is 0 and the total matched amount is 1750. -/
theorem C3_boundary_slot_scenario :
    process_calc_distribution_amount
      [⟨10, 1000, 10 ^ 17, 0, 0⟩, ⟨20, 1000, 2 * 10 ^ 17, 0, 0⟩] 20 (10 ^ 16) =
    .ok ([⟨10, 1000, 10 ^ 17, DEC, 11 * 10 ^ 15⟩,
          ⟨20, 1000, 2 * 10 ^ 17, 75 * 10 ^ 16, 9 * 10 ^ 15⟩], 0, 1750) := by
  rfl

theorem DEC_pos : 0 < DEC := by decide

theorem mulFloorU_ok {a d v : Nat} (h : mulFloorU a d = .ok v) : v = a * d / DEC := by
  unfold mulFloorU at h
  split at h
  · exact (Except.ok.injEq _ _ ▸ h).symm
  · exact absurd h (by simp)

theorem mulFloorU_error {a d : Nat} {e : CalcErr} (h : mulFloorU a d = .error e) :
    e = .overflow := by
  unfold mulFloorU at h
  split at h
  · exact absurd h (by simp)
  · simpa using h.symm

theorem addDec_ok {a b v : Nat} (h : addDec a b = .ok v) : v = a + b := by
  unfold addDec at h
  split at h
  · exact (Except.ok.injEq _ _ ▸ h).symm
  · exact absurd h (by simp)

theorem addDec_error {a b : Nat} {e : CalcErr} (h : addDec a b = .error e) :
    e = .overflow := by
  unfold addDec at h
  split at h
  · exact absurd h (by simp)
  · simpa using h.symm

theorem addU_ok {a b v : Nat} (h : addU a b = .ok v) : v = a + b := by
  unfold addU at h
  split at h
  · exact (Except.ok.injEq _ _ ▸ h).symm
  · exact absurd h (by simp)

theorem addU_error {a b : Nat} {e : CalcErr} (h : addU a b = .error e) :
    e = .overflow := by
  unfold addU at h
  split at h
  · exact absurd h (by simp)
  · simpa using h.symm

theorem fromRatio_ok {a b v : Nat} (h : fromRatio a b = .ok v) :
    b ≠ 0 ∧ v = a * DEC / b := by
  unfold fromRatio at h
  split at h
  · exact absurd h (by simp)
  · split at h
    · exact ⟨by assumption, (Except.ok.injEq _ _ ▸ h).symm⟩
    · exact absurd h (by simp)

theorem fromRatio_divZero {a b : Nat} (h : fromRatio a b = .error .divZero) :
    b = 0 := by
  unfold fromRatio at h
  split at h
  · assumption
  · split at h
    · exact absurd h (by simp)
    · simp at h

theorem actualAmount_le_desired {desired dist : Nat} :
    actualAmount desired dist ≤ desired := by
  unfold actualAmount
  split
  · exact Nat.le_refl _
  · omega

theorem actualAmount_le_dist {desired dist : Nat} :
    actualAmount desired dist ≤ dist := by
  unfold actualAmount
  split
  · assumption
  · exact Nat.le_refl _

/-- All the facts about one successful loop iteration that the invariant
proofs need. -/
theorem processOne_ok {exchange_rate : Nat} {p : BidPool} {dist matched : Nat}
    {p2 : BidPool} {dist2 matched2 : Nat}
    (h : processOne exchange_rate p dist matched = .ok (p2, dist2, matched2)) :
    p2.slot = p.slot ∧ p2.total_bid_amount = p.total_bid_amount ∧
    p2.premium_rate = p.premium_rate ∧
    p2.index_snapshot ≤ DEC ∧
    dist2 ≤ dist ∧
    matched ≤ matched2 ∧ matched2 ≤ matched + p.total_bid_amount ∧
    (dist2 ≠ 0 → p2.index_snapshot = DEC) := by
  unfold processOne at h
  split at h
  · simp at h
  rename_i s1 h1
  split at h
  · simp at h
  rename_i onePlus h2
  split at h
  · simp at h
  rename_i desired h3
  split at h
  · simp at h
  rename_i snap h4
  split at h
  · simp at h
  rename_i rpt h5
  split at h
  · simp at h
  rename_i add h6
  split at h
  · simp at h
  rename_i m2 h7
  simp only [Except.ok.injEq, Prod.mk.injEq] at h
  obtain ⟨hp2, hdist2, hm2⟩ := h
  subst hp2 hdist2 hm2
  obtain ⟨hdz, hsnap⟩ := fromRatio_ok h4
  have hadd := mulFloorU_ok h6
  have hm := addU_ok h7
  have hsnap_le : snap ≤ DEC := by
    rw [hsnap]
    calc actualAmount desired dist * DEC / desired
        ≤ desired * DEC / desired :=
          Nat.div_le_div_right (Nat.mul_le_mul_right _ actualAmount_le_desired)
      _ = DEC := Nat.mul_div_cancel_left _ (Nat.pos_of_ne_zero hdz)
  have hadd_le : add ≤ p.total_bid_amount := by
    rw [hadd]
    calc p.total_bid_amount * snap / DEC
        ≤ p.total_bid_amount * DEC / DEC :=
          Nat.div_le_div_right (Nat.mul_le_mul_left _ hsnap_le)
      _ = p.total_bid_amount := Nat.mul_div_cancel _ DEC_pos
  refine ⟨rfl, rfl, rfl, hsnap_le, Nat.sub_le _ _, by omega, by omega, ?_⟩
  intro hne
  have hact : actualAmount desired dist = desired := by
    by_cases hc : desired ≤ dist
    · unfold actualAmount
      rw [if_pos hc]
    · exfalso
      unfold actualAmount at hne
      rw [if_neg hc] at hne
      omega
  show snap = DEC
  rw [hsnap, hact, Nat.mul_div_cancel_left _ (Nat.pos_of_ne_zero hdz)]

/-- Case analysis for one step of the allocation loop. -/
theorem processPools_cons_ok {rate : Nat} {p : BidPool} {rest : List BidPool}
    {dist matched : Nat} {ps : List BidPool} {b m : Nat}
    (h : processPools rate (p :: rest) dist matched = .ok (ps, b, m)) :
    (p.total_bid_amount = 0 ∧
      ∃ ps', processPools rate rest dist matched = .ok (ps', b, m) ∧ ps = p :: ps') ∨
    (p.total_bid_amount ≠ 0 ∧
      ∃ p2 dist2 matched2,
        processOne rate p dist matched = .ok (p2, dist2, matched2) ∧
        ((dist2 = 0 ∧ ps = p2 :: rest ∧ b = 0 ∧ m = matched2) ∨
         (dist2 ≠ 0 ∧
           ∃ ps', processPools rate rest dist2 matched2 = .ok (ps', b, m) ∧
             ps = p2 :: ps'))) := by
  simp only [processPools] at h
  split at h
  · rename_i hz
    left
    refine ⟨hz, ?_⟩
    split at h
    · simp at h
    · rename_i ps' d t hr
      simp only [Except.ok.injEq, Prod.mk.injEq] at h
      obtain ⟨rfl, rfl, rfl⟩ := h
      exact ⟨ps', hr, rfl⟩
  · rename_i hnz
    right
    refine ⟨hnz, ?_⟩
    split at h
    · simp at h
    · rename_i p2 dist2 matched2 hone
      refine ⟨p2, dist2, matched2, hone, ?_⟩
      split at h
      · rename_i hd0
        left
        simp only [Except.ok.injEq, Prod.mk.injEq] at h
        obtain ⟨rfl, rfl, rfl⟩ := h
        exact ⟨hd0, rfl, hd0, rfl⟩
      · rename_i hdne
        right
        refine ⟨hdne, ?_⟩
        split at h
        · simp at h
        · rename_i ps' d t hr
          simp only [Except.ok.injEq, Prod.mk.injEq] at h
          obtain ⟨rfl, rfl, rfl⟩ := h
          exact ⟨ps', hr, rfl⟩

/-- The fill ratios (`index_snapshot` atomics) of the pools with nonzero
deposits, in processing order. -/
def nonzeroSnaps (ps : List BidPool) : List Nat :=
  (ps.filter fun p => p.total_bid_amount != 0).map fun p => p.index_snapshot

/-- The single-boundary-slot shape: whenever a later entry is funded at all,
every earlier entry is funded in full. -/
def IsBoundary (l : List Nat) : Prop :=
  ∀ (i j : Nat) (hi : i < l.length) (hj : j < l.length),
    i < j → 0 < l.get ⟨j, hj⟩ → l.get ⟨i, hi⟩ = DEC

theorem isBoundary_nil : IsBoundary [] := by
  intro i j hi hj
  simp at hj

theorem isBoundary_cons_full {l : List Nat} (h : IsBoundary l) :
    IsBoundary (DEC :: l) := by
  intro i j hi hj hij hpos
  cases i with
  | zero => rfl
  | succ i' =>
    cases j with
    | zero => omega
    | succ j' =>
      have hi' : i' < l.length := by
        simp only [List.length_cons] at hi
        omega
      have hj' : j' < l.length := by
        simp only [List.length_cons] at hj
        omega
      exact h i' j' hi' hj' (by omega) hpos

theorem isBoundary_cons_zeros {s : Nat} {l : List Nat} (h : ∀ x ∈ l, x = 0) :
    IsBoundary (s :: l) := by
  intro i j hi hj hij hpos
  exfalso
  cases j with
  | zero => omega
  | succ j' =>
    have hj' : j' < l.length := by
      simp only [List.length_cons] at hj
      omega
    have hmem : (s :: l).get ⟨j' + 1, hj⟩ ∈ l := List.get_mem l j' hj'
    have := h _ hmem
    omega

theorem nonzeroSnaps_cons_zero {p : BidPool} {ps : List BidPool}
    (h : p.total_bid_amount = 0) :
    nonzeroSnaps (p :: ps) = nonzeroSnaps ps := by
  simp [nonzeroSnaps, List.filter_cons, h]

theorem nonzeroSnaps_cons_nonzero {p : BidPool} {ps : List BidPool}
    (h : p.total_bid_amount ≠ 0) :
    nonzeroSnaps (p :: ps) = p.index_snapshot :: nonzeroSnaps ps := by
  simp [nonzeroSnaps, List.filter_cons, h]

theorem nonzeroSnaps_all_zero {ps : List BidPool}
    (h : ∀ p ∈ ps, p.index_snapshot = 0) : ∀ x ∈ nonzeroSnaps ps, x = 0 := by
  intro x hx
  simp only [nonzeroSnaps, List.mem_map, List.mem_filter] at hx
  obtain ⟨q, ⟨hq, -⟩, rfl⟩ := hx
  exact h q hq

/-- Core invariant of the allocation pass: starting from all-zero fill
ratios, the written ratios have the single-boundary shape. -/
theorem processPools_boundary {rate : Nat} :
    ∀ (pools : List BidPool) (dist matched : Nat) (ps : List BidPool) (b m : Nat),
      (∀ p ∈ pools, p.index_snapshot = 0) →
      processPools rate pools dist matched = .ok (ps, b, m) →
      IsBoundary (nonzeroSnaps ps) := by
  intro pools
  induction pools with
  | nil =>
    intro dist matched ps b m _ h
    simp only [processPools, Except.ok.injEq, Prod.mk.injEq] at h
    obtain ⟨rfl, -, -⟩ := h
    exact isBoundary_nil
  | cons p rest ih =>
    intro dist matched ps b m hz h
    rcases processPools_cons_ok h with
      ⟨hz0, ps', hr, rfl⟩ | ⟨hnz, p2, dist2, matched2, hone, hcase⟩
    · rw [nonzeroSnaps_cons_zero hz0]
      exact ih dist matched ps' b m (fun q hq => hz q (List.mem_cons_of_mem _ hq)) hr
    · obtain ⟨-, hamt, -, hsnap_le, -, -, -, hfull⟩ := processOne_ok hone
      have hamt2 : p2.total_bid_amount ≠ 0 := by rw [hamt]; exact hnz
      rcases hcase with ⟨hd0, rfl, rfl, rfl⟩ | ⟨hdne, ps', hr, rfl⟩
      · rw [nonzeroSnaps_cons_nonzero hamt2]
        exact isBoundary_cons_zeros
          (nonzeroSnaps_all_zero (fun q hq => hz q (List.mem_cons_of_mem _ hq)))
      · rw [nonzeroSnaps_cons_nonzero hamt2, hfull hdne]
        exact isBoundary_cons_full
          (ih dist2 matched2 ps' b m (fun q hq => hz q (List.mem_cons_of_mem _ hq)) hr)

/-- Every fill ratio after the pass is at most `Decimal::one()`, provided
the input ratios were (the loop writes `actual / desired` with
`actual ≤ desired`, and leaves untouched pools alone). -/
theorem processPools_snap_le {rate : Nat} :
    ∀ (pools : List BidPool) (dist matched : Nat) (ps : List BidPool) (b m : Nat),
      (∀ p ∈ pools, p.index_snapshot ≤ DEC) →
      processPools rate pools dist matched = .ok (ps, b, m) →
      ∀ p ∈ ps, p.index_snapshot ≤ DEC := by
  intro pools
  induction pools with
  | nil =>
    intro dist matched ps b m _ h
    simp only [processPools, Except.ok.injEq, Prod.mk.injEq] at h
    obtain ⟨rfl, -, -⟩ := h
    simp
  | cons p rest ih =>
    intro dist matched ps b m hle h
    rcases processPools_cons_ok h with
      ⟨hz0, ps', hr, rfl⟩ | ⟨hnz, p2, dist2, matched2, hone, hcase⟩
    · intro q hq
      rcases List.mem_cons.mp hq with rfl | hq'
      · exact hle q (List.mem_cons_self _ _)
      · exact ih dist matched ps' b m
          (fun r hr' => hle r (List.mem_cons_of_mem _ hr')) hr q hq'
    · obtain ⟨-, -, -, hsnap_le, -, -, -, -⟩ := processOne_ok hone
      rcases hcase with ⟨hd0, rfl, rfl, rfl⟩ | ⟨hdne, ps', hr, rfl⟩
      · intro q hq
        rcases List.mem_cons.mp hq with rfl | hq'
        · exact hsnap_le
        · exact hle q (List.mem_cons_of_mem _ hq')
      · intro q hq
        rcases List.mem_cons.mp hq with rfl | hq'
        · exact hsnap_le
        · exact ih dist2 matched2 ps' b m
            (fun r hr' => hle r (List.mem_cons_of_mem _ hr')) hr q hq'

/-- Budget and matched-amount bounds over the allocation pass. -/
theorem processPools_bounds {rate : Nat} :
    ∀ (pools : List BidPool) (dist matched : Nat) (ps : List BidPool) (b m : Nat),
      processPools rate pools dist matched = .ok (ps, b, m) →
      b ≤ dist ∧ matched ≤ m ∧
        m ≤ matched + (pools.map fun p => p.total_bid_amount).sum := by
  intro pools
  induction pools with
  | nil =>
    intro dist matched ps b m h
    simp only [processPools, Except.ok.injEq, Prod.mk.injEq] at h
    obtain ⟨-, rfl, rfl⟩ := h
    simp
  | cons p rest ih =>
    intro dist matched ps b m h
    rcases processPools_cons_ok h with
      ⟨hz0, ps', hr, rfl⟩ | ⟨hnz, p2, dist2, matched2, hone, hcase⟩
    · have := ih dist matched ps' b m hr
      simp only [List.map_cons, List.sum_cons, hz0]
      omega
    · obtain ⟨-, -, -, -, hd2le, hmle, hmle2, -⟩ := processOne_ok hone
      rcases hcase with ⟨hd0, rfl, rfl, rfl⟩ | ⟨hdne, ps', hr, rfl⟩
      · simp only [List.map_cons, List.sum_cons]
        omega
      · have := ih dist2 matched2 ps' b m hr
        simp only [List.map_cons, List.sum_cons]
        omega

/-- **C1.** In the allocation pass of `process_calc_distribution_amount`, when
slots with nonzero deposits are processed in ascending slot (premium) order,
at most one slot ends with a fill ratio (`index_snapshot`) strictly between 0
and 1; every slot processed before that boundary slot has fill ratio exactly
1, and every slot after it has fill ratio 0.  (`nonzeroSnaps ps` lists the
final ratios of the nonzero-deposit slots in processing order; a ratio of 1
is `DEC` atomics.) -/
theorem C1_single_boundary_slot (pools : List BidPool) (dist rate : Nat)
    (ps : List BidPool) (b m : Nat)
    (_hasc : pools.Pairwise fun p q => p.slot < q.slot)
    (hz : ∀ p ∈ pools, p.index_snapshot = 0)
    (hok : process_calc_distribution_amount pools dist rate = .ok (ps, b, m)) :
    (∀ (i j : Nat) (hi : i < (nonzeroSnaps ps).length)
        (hj : j < (nonzeroSnaps ps).length),
        0 < (nonzeroSnaps ps).get ⟨i, hi⟩ → (nonzeroSnaps ps).get ⟨i, hi⟩ < DEC →
        0 < (nonzeroSnaps ps).get ⟨j, hj⟩ → (nonzeroSnaps ps).get ⟨j, hj⟩ < DEC →
        i = j) ∧
    (∀ (i j : Nat) (hi : i < (nonzeroSnaps ps).length)
        (hj : j < (nonzeroSnaps ps).length), i < j →
        0 < (nonzeroSnaps ps).get ⟨j, hj⟩ → (nonzeroSnaps ps).get ⟨j, hj⟩ < DEC →
        (nonzeroSnaps ps).get ⟨i, hi⟩ = DEC) ∧
    (∀ (i j : Nat) (hi : i < (nonzeroSnaps ps).length)
        (hj : j < (nonzeroSnaps ps).length), i < j →
        0 < (nonzeroSnaps ps).get ⟨i, hi⟩ → (nonzeroSnaps ps).get ⟨i, hi⟩ < DEC →
        (nonzeroSnaps ps).get ⟨j, hj⟩ = 0) := by
  have hb := processPools_boundary pools dist 0 ps b m hz hok
  refine ⟨?_, ?_, ?_⟩
  · intro i j hi hj hpi hli hpj hlj
    rcases Nat.lt_trichotomy i j with hij | rfl | hji
    · exact absurd (hb i j hi hj hij hpj) (by omega)
    · rfl
    · exact absurd (hb j i hj hi hji hpi) (by omega)
  · intro i j hi hj hij hpj hlj
    exact hb i j hi hj hij hpj
  · intro i j hi hj hij hpi hli
    by_contra hne
    exact absurd (hb i j hi hj hij (Nat.pos_of_ne_zero hne)) (by omega)

/-- Witness for C1 at the two-slot boundary scenario. -/
theorem C1_single_boundary_slot_witness :
    ([(⟨10, 1000, 10 ^ 17, 0, 0⟩ : BidPool),
       ⟨20, 1000, 2 * 10 ^ 17, 0, 0⟩].Pairwise fun p q => p.slot < q.slot) ∧
    (∀ p ∈ [(⟨10, 1000, 10 ^ 17, 0, 0⟩ : BidPool), ⟨20, 1000, 2 * 10 ^ 17, 0, 0⟩],
        p.index_snapshot = 0) ∧
    process_calc_distribution_amount
      [⟨10, 1000, 10 ^ 17, 0, 0⟩, ⟨20, 1000, 2 * 10 ^ 17, 0, 0⟩] 20 (10 ^ 16) =
      .ok ([⟨10, 1000, 10 ^ 17, DEC, 11 * 10 ^ 15⟩,
            ⟨20, 1000, 2 * 10 ^ 17, 75 * 10 ^ 16, 9 * 10 ^ 15⟩], 0, 1750) ∧
    ((∀ (i j : Nat)
        (hi : i < (nonzeroSnaps [⟨10, 1000, 10 ^ 17, DEC, 11 * 10 ^ 15⟩,
            ⟨20, 1000, 2 * 10 ^ 17, 75 * 10 ^ 16, 9 * 10 ^ 15⟩]).length)
        (hj : j < (nonzeroSnaps [⟨10, 1000, 10 ^ 17, DEC, 11 * 10 ^ 15⟩,
            ⟨20, 1000, 2 * 10 ^ 17, 75 * 10 ^ 16, 9 * 10 ^ 15⟩]).length),
        0 < (nonzeroSnaps [⟨10, 1000, 10 ^ 17, DEC, 11 * 10 ^ 15⟩,
            ⟨20, 1000, 2 * 10 ^ 17, 75 * 10 ^ 16, 9 * 10 ^ 15⟩]).get ⟨i, hi⟩ →
        (nonzeroSnaps [⟨10, 1000, 10 ^ 17, DEC, 11 * 10 ^ 15⟩,
            ⟨20, 1000, 2 * 10 ^ 17, 75 * 10 ^ 16, 9 * 10 ^ 15⟩]).get ⟨i, hi⟩ < DEC →
        0 < (nonzeroSnaps [⟨10, 1000, 10 ^ 17, DEC, 11 * 10 ^ 15⟩,
            ⟨20, 1000, 2 * 10 ^ 17, 75 * 10 ^ 16, 9 * 10 ^ 15⟩]).get ⟨j, hj⟩ →
        (nonzeroSnaps [⟨10, 1000, 10 ^ 17, DEC, 11 * 10 ^ 15⟩,
            ⟨20, 1000, 2 * 10 ^ 17, 75 * 10 ^ 16, 9 * 10 ^ 15⟩]).get ⟨j, hj⟩ < DEC →
        i = j) ∧
      (∀ (i j : Nat)
        (hi : i < (nonzeroSnaps [⟨10, 1000, 10 ^ 17, DEC, 11 * 10 ^ 15⟩,
            ⟨20, 1000, 2 * 10 ^ 17, 75 * 10 ^ 16, 9 * 10 ^ 15⟩]).length)
        (hj : j < (nonzeroSnaps [⟨10, 1000, 10 ^ 17, DEC, 11 * 10 ^ 15⟩,
            ⟨20, 1000, 2 * 10 ^ 17, 75 * 10 ^ 16, 9 * 10 ^ 15⟩]).length), i < j →
        0 < (nonzeroSnaps [⟨10, 1000, 10 ^ 17, DEC, 11 * 10 ^ 15⟩,
            ⟨20, 1000, 2 * 10 ^ 17, 75 * 10 ^ 16, 9 * 10 ^ 15⟩]).get ⟨j, hj⟩ →
        (nonzeroSnaps [⟨10, 1000, 10 ^ 17, DEC, 11 * 10 ^ 15⟩,
            ⟨20, 1000, 2 * 10 ^ 17, 75 * 10 ^ 16, 9 * 10 ^ 15⟩]).get ⟨j, hj⟩ < DEC →
        (nonzeroSnaps [⟨10, 1000, 10 ^ 17, DEC, 11 * 10 ^ 15⟩,
            ⟨20, 1000, 2 * 10 ^ 17, 75 * 10 ^ 16, 9 * 10 ^ 15⟩]).get ⟨i, hi⟩ = DEC) ∧
      (∀ (i j : Nat)
        (hi : i < (nonzeroSnaps [⟨10, 1000, 10 ^ 17, DEC, 11 * 10 ^ 15⟩,
            ⟨20, 1000, 2 * 10 ^ 17, 75 * 10 ^ 16, 9 * 10 ^ 15⟩]).length)
        (hj : j < (nonzeroSnaps [⟨10, 1000, 10 ^ 17, DEC, 11 * 10 ^ 15⟩,
            ⟨20, 1000, 2 * 10 ^ 17, 75 * 10 ^ 16, 9 * 10 ^ 15⟩]).length), i < j →
        0 < (nonzeroSnaps [⟨10, 1000, 10 ^ 17, DEC, 11 * 10 ^ 15⟩,
            ⟨20, 1000, 2 * 10 ^ 17, 75 * 10 ^ 16, 9 * 10 ^ 15⟩]).get ⟨i, hi⟩ →
        (nonzeroSnaps [⟨10, 1000, 10 ^ 17, DEC, 11 * 10 ^ 15⟩,
            ⟨20, 1000, 2 * 10 ^ 17, 75 * 10 ^ 16, 9 * 10 ^ 15⟩]).get ⟨i, hi⟩ < DEC →
        (nonzeroSnaps [⟨10, 1000, 10 ^ 17, DEC, 11 * 10 ^ 15⟩,
            ⟨20, 1000, 2 * 10 ^ 17, 75 * 10 ^ 16, 9 * 10 ^ 15⟩]).get ⟨j, hj⟩ = 0)) :=
  ⟨by decide, by decide, by rfl,
    C1_single_boundary_slot
      [⟨10, 1000, 10 ^ 17, 0, 0⟩, ⟨20, 1000, 2 * 10 ^ 17, 0, 0⟩] 20 (10 ^ 16)
      [⟨10, 1000, 10 ^ 17, DEC, 11 * 10 ^ 15⟩,
       ⟨20, 1000, 2 * 10 ^ 17, 75 * 10 ^ 16, 9 * 10 ^ 15⟩] 0 1750
      (by decide) (by decide) (by rfl)⟩

/-- **C2.** At `exchange_rate = 0` with a nonzero-deposit slot, the truncated
`desired_amount` is 0 and `Decimal::from_ratio(actual_amount, desired_amount)`
is invoked with a zero denominator: the allocation pass aborts with a
divide-by-zero panic.  This contradicts the claim (which asserts the division
is safe for every rate including 0) and spec section 4.2, which prescribes a
fill ratio of 0 when the desired amount is 0. -/
theorem C2_div_by_zero_at_zero_rate :
    process_calc_distribution_amount [⟨1, 1000, 10 ^ 17, 0, 0⟩] 100 0 =
      .error .divZero := by
  rfl

/-- **C4 (amended).** The returned total matched amount is at most the sum of
the slots' deposited totals, and the consumed budget is at most the original
budget, with equality exactly when the remaining budget is zero at the end of
the pass (i.e. the budget was fully exhausted, whether or not slots remained
unvisited). -/
theorem C4_matched_and_budget_bounds (pools : List BidPool) (dist rate : Nat)
    (ps : List BidPool) (b m : Nat)
    (hok : process_calc_distribution_amount pools dist rate = .ok (ps, b, m)) :
    m ≤ (pools.map fun p => p.total_bid_amount).sum ∧
    dist - b ≤ dist ∧
    (dist - b = dist ↔ b = 0) := by
  obtain ⟨hb, -, hm⟩ := processPools_bounds pools dist 0 ps b m hok
  exact ⟨by omega, Nat.sub_le _ _, by omega⟩

/-- Witness for C4 (amended) at a concrete input. -/
theorem C4_matched_and_budget_bounds_witness :
    process_calc_distribution_amount [⟨1, 1000, 10 ^ 17, 0, 0⟩] 5 (10 ^ 16) =
      .ok ([⟨1, 1000, 10 ^ 17, 5 * 10 ^ 18 / 11, 5 * 10 ^ 15⟩], 0, 454) ∧
    (454 ≤ ([(⟨1, 1000, 10 ^ 17, 0, 0⟩ : BidPool)].map
        fun p => p.total_bid_amount).sum ∧
      5 - 0 ≤ 5 ∧ (5 - 0 = 5 ↔ 0 = 0)) :=
  ⟨by rfl, C4_matched_and_budget_bounds
    [⟨1, 1000, 10 ^ 17, 0, 0⟩] 5 (10 ^ 16)
    [⟨1, 1000, 10 ^ 17, 5 * 10 ^ 18 / 11, 5 * 10 ^ 15⟩] 0 454 (by rfl)⟩

/-- **C4 counterexample.** With a single nonzero-deposit slot (deposit 1000,
premium 10%, rate 0.01, so desired = 11) and budget 5, the budget is fully
consumed (consumed = 5 - 0 = 5 = budget) even though every slot was visited:
the only slot's ratio was written (5·10^18/11 ≠ 0).  This refutes "equality in
budget consumed iff the budget was fully exhausted before all slots were
visited" — here the budget ran out at the last slot, with no slot left
unvisited, yet equality holds. -/
theorem C4_counterexample :
    process_calc_distribution_amount [⟨1, 1000, 10 ^ 17, 0, 0⟩] 5 (10 ^ 16) =
      .ok ([⟨1, 1000, 10 ^ 17, 5 * 10 ^ 18 / 11, 5 * 10 ^ 15⟩], 0, 454) ∧
    5 - 0 = 5 ∧ (5 * 10 ^ 18 / 11 ≠ 0) :=
  ⟨by rfl, rfl, by decide⟩

/-- `oraiswap::asset::AssetInfo`: the closed two-variant asset kind. -/
inductive AssetInfo where
  | native (denom : String)
  | token (contract_addr : String)
deriving DecidableEq, Repr

/-- The value-movement instructions the contract emits (the `CosmosMsg`
variants it actually constructs). -/
inductive CosmosMsg where
  | bankSend (denom : String) (to_address : String) (amount : Nat)
  | wasmTransfer (contract_addr : String) (recipient : String) (amount : Nat)
  | bankBurn (denom : String) (amount : Nat)
  | wasmBurn (contract_addr : String) (amount : Nat)
deriving DecidableEq, Repr

/-- `helper.rs` `into_cosmos_msg`: a bank send for a native asset, a CW20
`Transfer` execute for a token asset. -/
def into_cosmos_msg (asset_info : AssetInfo) (receiver : String) (amount : Nat) :
    CosmosMsg :=
  match asset_info with
  | .token contract_addr => .wasmTransfer contract_addr receiver amount
  | .native denom => .bankSend denom receiver amount

/-- `state.rs` `struct Bid`. -/
structure Bid where
  idx : Nat
  round : Nat
  premium_slot : Nat
  timestamp : Nat
  bidder : String
  amount : Nat
  residue_bid : Nat
  amount_received : Nat
  is_distributed : Bool
deriving DecidableEq, Repr

/-- `state.rs` `struct BiddingInfo` (timestamps in seconds). -/
structure BiddingInfo where
  round : Nat
  start_time : Nat
  end_time : Nat
  total_bid_amount : Nat
  total_bid_matched : Nat
deriving DecidableEq, Repr

/-- `state.rs` `struct DistributionInfo` (`exchange_rate` in atomics). -/
structure DistributionInfo where
  total_distribution : Nat
  exchange_rate : Nat
  is_released : Bool
  actual_distributed : Nat
  num_bids_distributed : Nat
deriving DecidableEq, Repr

/-- `state.rs` `struct Config` (rates in atomics). -/
structure Config where
  owner : String
  underlying_token : AssetInfo
  distribution_token : AssetInfo
  max_slot : Nat
  premium_rate_per_slot : Nat
  min_deposit_amount : Nat
  treasury : String
  bidding_duration : Nat
deriving DecidableEq, Repr

/-- Lookup in a storage map modelled as an association list
(`Map::load` / `Map::may_load`). -/
def mapGet {α : Type} (m : List (Nat × α)) (k : Nat) : Option α :=
  (m.find? fun kv => kv.1 == k).map fun kv => kv.2

/-- `Map::save`: store a value under a key. -/
def mapSet {α : Type} (m : List (Nat × α)) (k : Nat) (v : α) : List (Nat × α) :=
  (k, v) :: (m.filter fun kv => kv.1 != k)

theorem mapGet_set_self {α : Type} (m : List (Nat × α)) (k : Nat) (v : α) :
    mapGet (mapSet m k v) k = some v := by
  simp [mapGet, mapSet, List.find?]

theorem find?_filter_ne {α : Type} (m : List (Nat × α)) (k k' : Nat)
    (h : k' ≠ k) :
    ((m.filter fun kv => kv.1 != k).find? fun kv => kv.1 == k') =
      m.find? fun kv => kv.1 == k' := by
  induction m with
  | nil => rfl
  | cons a t ih =>
    by_cases hak : a.1 = k
    · have ha' : a.1 ≠ k' := by omega
      have hfil : ((a :: t).filter fun kv => kv.1 != k) =
          t.filter fun kv => kv.1 != k := by
        simp [List.filter_cons, hak]
      rw [hfil, ih, List.find?_cons_of_neg _ (by simp [ha'])]
    · have hfil : ((a :: t).filter fun kv => kv.1 != k) =
          a :: (t.filter fun kv => kv.1 != k) := by
        simp [List.filter_cons, hak]
      by_cases hak' : a.1 = k'
      · rw [hfil, List.find?_cons_of_pos _ (by simp [hak']),
          List.find?_cons_of_pos _ (by simp [hak'])]
      · rw [hfil, List.find?_cons_of_neg _ (by simp [hak']),
          List.find?_cons_of_neg _ (by simp [hak']), ih]

theorem mapGet_set_ne {α : Type} (m : List (Nat × α)) {k k' : Nat} (v : α)
    (h : k' ≠ k) : mapGet (mapSet m k v) k' = mapGet m k' := by
  have hk : (k == k') = false := by
    simp only [beq_eq_false_iff_ne, ne_eq]
    omega
  simp only [mapGet, mapSet, List.find?, hk]
  rw [find?_filter_ne m k k' h]

/-- The slice of contract storage for one fixed round that the settlement
entry points read and write: the round's `BIDDING_INFO` and
`DISTRIBUTION_INFO` records, its `BID_POOL` entries keyed by slot, the `BID`
map keyed by bid index, and the ascending key list of the round's
`BIDS_BY_ROUND` index. -/
structure RoundStorage where
  biddingInfo : BiddingInfo
  distInfo : DistributionInfo
  bidPools : List (Nat × BidPool)
  bids : List (Nat × Bid)
  bidsByRound : List Nat
deriving DecidableEq, Repr

/-- `state.rs` `read_bids_by_round`: page through the round's bid indexes.
`limit` defaults to 30 and is capped at the hard maximum 1000.  The start
bound is `Bound::ExclusiveRaw(start_after.to_be_bytes() ++ [0])`, i.e. keys
strictly greater than `start_after`; `cw_storage_plus::keys(store, min, max,
order)` treats this bound as the *minimum* for both iteration orders, so
descending order (`order_by = Some 2`) iterates the same key set from the top
down.  `bidsByRound` is the ascending list of stored keys of the round. -/
def read_bids_by_round (bidsByRound : List Nat) (start_after : Option Nat)
    (limit : Option Nat) (order_by : Option Nat) : List Nat :=
  let lim := min (limit.getD 30) 1000
  let inRange :=
    match start_after with
    | some start => bidsByRound.filter fun idx => decide (start < idx)
    | none => bidsByRound
  match order_by with
  | some 2 => inRange.reverse.take lim
  | _ => inRange.take lim

/-- The `index_snapshot` vector built at the top of `execute_distribute`
(`bid.rs` lines 255-264): size `max_slot + 1`, entry 0 left at its zero
default, entry `slot` filled from the stored pool when one exists. -/
def snapVec (pools : List (Nat × BidPool)) (maxSlot : Nat) : List Nat :=
  (List.range (maxSlot + 1)).map fun slot =>
    if slot = 0 then 0
    else
      match mapGet pools slot with
      | some bp => bp.index_snapshot
      | none => 0

/-- The `receiver_per_token` vector built at the top of `execute_distribute`,
alongside `snapVec`. -/
def rptVec (pools : List (Nat × BidPool)) (maxSlot : Nat) : List Nat :=
  (List.range (maxSlot + 1)).map fun slot =>
    if slot = 0 then 0
    else
      match mapGet pools slot with
      | some bp => bp.received_per_token
      | none => 0

/-- One iteration of the settlement loop of `execute_distribute`
(`bid.rs` lines 270-303) for a single bid index: load the bid (`BID.load`
fails when absent), skip it when already distributed, otherwise compute
`amount_received = bid.amount * receiver_per_token[slot]` and
`residue_bid = bid.amount * (Decimal::one() - index_snapshot[slot])`, emit a
transfer instruction for each nonzero amount, write the settled bid back and
bump the round's settled counter.  `none` models the aborting outcomes
(missing bid, vector index out of bounds, subtraction underflow when the
snapshot exceeds one, `Uint128` overflow). -/
def distributeStep (cfg : Config) (snaps rpts : List Nat)
    (acc : RoundStorage × List CosmosMsg) (idx : Nat) :
    Option (RoundStorage × List CosmosMsg) :=
  match mapGet acc.1.bids idx with
  | none => none
  | some bid =>
    if bid.is_distributed then some acc
    else
      match rpts.get? bid.premium_slot, snaps.get? bid.premium_slot with
      | some rpt, some snap =>
        if bid.amount * rpt / DEC < U128 then
          if snap ≤ DEC then
            if bid.amount * (DEC - snap) / DEC < U128 then
              some ({ acc.1 with
                        bids := mapSet acc.1.bids idx
                          { bid with amount_received := bid.amount * rpt / DEC,
                                     residue_bid := bid.amount * (DEC - snap) / DEC,
                                     is_distributed := true },
                        distInfo := { acc.1.distInfo with
                          num_bids_distributed :=
                            acc.1.distInfo.num_bids_distributed + 1 } },
                    (acc.2 ++
                      (if 0 < bid.amount * rpt / DEC then
                        [into_cosmos_msg cfg.distribution_token bid.bidder
                          (bid.amount * rpt / DEC)]
                      else [])) ++
                      (if 0 < bid.amount * (DEC - snap) / DEC then
                        [into_cosmos_msg cfg.underlying_token bid.bidder
                          (bid.amount * (DEC - snap) / DEC)]
                      else []))
            else none
          else none
        else none
      | _, _ => none

/-- The settlement loop of `execute_distribute` over a page of bid indexes. -/
def distributeLoop (cfg : Config) (snaps rpts : List Nat) :
    List Nat → RoundStorage × List CosmosMsg → Option (RoundStorage × List CosmosMsg)
  | [], acc => some acc
  | idx :: rest, acc =>
    match distributeStep cfg snaps rpts acc idx with
    | none => none
    | some acc2 => distributeLoop cfg snaps rpts rest acc2

/-- `execute_distribute` (`bid.rs` lines 242-316) on one round's storage
slice: requires the round to be released (else `Err(BidNotEnded)`), builds
the per-slot snapshot vectors, pages through the round's bid indexes (the
source calls `read_bids_by_round` without an order argument, i.e. the
ascending default) and settles each bid in turn.  `none` covers both the
returned errors and the panicking outcomes; each aborts the call with no
state change. -/
def execute_distribute (cfg : Config) (st : RoundStorage)
    (start_after limit : Option Nat) : Option (RoundStorage × List CosmosMsg) :=
  if st.distInfo.is_released = false then none
  else
    distributeLoop cfg (snapVec st.bidPools cfg.max_slot)
      (rptVec st.bidPools cfg.max_slot)
      (read_bids_by_round st.bidsByRound start_after limit none) (st, [])

/-- Case analysis for one successful settlement step: either the bid was
already distributed and nothing changes, or the bid is settled and written
back. -/
theorem distributeStep_ok_cases {cfg : Config} {snaps rpts : List Nat}
    {st : RoundStorage} {msgs : List CosmosMsg} {idx : Nat}
    {st2 : RoundStorage} {msgs2 : List CosmosMsg}
    (h : distributeStep cfg snaps rpts (st, msgs) idx = some (st2, msgs2)) :
    (∃ bid, mapGet st.bids idx = some bid ∧ bid.is_distributed = true ∧
      st2 = st ∧ msgs2 = msgs) ∨
    (∃ bid rpt snap,
      mapGet st.bids idx = some bid ∧ bid.is_distributed = false ∧
      rpts.get? bid.premium_slot = some rpt ∧
      snaps.get? bid.premium_slot = some snap ∧
      bid.amount * rpt / DEC < U128 ∧ snap ≤ DEC ∧
      bid.amount * (DEC - snap) / DEC < U128 ∧
      st2 = { st with
                bids := mapSet st.bids idx
                  { bid with amount_received := bid.amount * rpt / DEC,
                             residue_bid := bid.amount * (DEC - snap) / DEC,
                             is_distributed := true },
                distInfo := { st.distInfo with
                  num_bids_distributed :=
                    st.distInfo.num_bids_distributed + 1 } } ∧
      msgs2 = (msgs ++
          (if 0 < bid.amount * rpt / DEC then
            [into_cosmos_msg cfg.distribution_token bid.bidder
              (bid.amount * rpt / DEC)]
          else [])) ++
          (if 0 < bid.amount * (DEC - snap) / DEC then
            [into_cosmos_msg cfg.underlying_token bid.bidder
              (bid.amount * (DEC - snap) / DEC)]
          else [])) := by
  unfold distributeStep at h
  split at h
  · simp at h
  · rename_i bid hbid
    split at h
    · rename_i hdist
      left
      simp only [Option.some.injEq, Prod.mk.injEq] at h
      exact ⟨bid, hbid, hdist, h.1.symm, h.2.symm⟩
    · rename_i hdist
      right
      split at h
      · rename_i rpt snap hrpt hsnap
        split at h
        · rename_i hov1
          split at h
          · rename_i hle
            split at h
            · rename_i hov2
              simp only [Option.some.injEq, Prod.mk.injEq] at h
              exact ⟨bid, rpt, snap, hbid, Bool.not_eq_true _ ▸ hdist, hrpt, hsnap,
                hov1, hle, hov2, h.1.symm, h.2.symm⟩
            · simp at h
          · simp at h
        · simp at h
      · simp at h

/-- The settlement loop never touches the round's pools, bidding info,
`BIDS_BY_ROUND` index, or the released flag. -/
theorem distributeLoop_preserves {cfg : Config} {snaps rpts : List Nat} :
    ∀ (L : List Nat) (st : RoundStorage) (msgs : List CosmosMsg)
      (st2 : RoundStorage) (msgs2 : List CosmosMsg),
      distributeLoop cfg snaps rpts L (st, msgs) = some (st2, msgs2) →
      st2.bidsByRound = st.bidsByRound ∧ st2.bidPools = st.bidPools ∧
      st2.biddingInfo = st.biddingInfo ∧
      st2.distInfo.is_released = st.distInfo.is_released := by
  intro L
  induction L with
  | nil =>
    intro st msgs st2 msgs2 h
    simp only [distributeLoop, Option.some.injEq, Prod.mk.injEq] at h
    obtain ⟨rfl, rfl⟩ := h
    exact ⟨rfl, rfl, rfl, rfl⟩
  | cons idx rest ih =>
    intro st msgs st2 msgs2 h
    simp only [distributeLoop] at h
    split at h
    · simp at h
    · rename_i acc2 hstep
      obtain ⟨stm, msgsm⟩ := acc2
      obtain ⟨h1, h2, h3, h4⟩ := ih stm msgsm st2 msgs2 h
      rcases distributeStep_ok_cases hstep with
        ⟨bid, -, -, rfl, rfl⟩ |
        ⟨bid, rpt, snap, -, -, -, -, -, -, -, hst2, -⟩
      · exact ⟨h1, h2, h3, h4⟩
      · subst hst2
        exact ⟨h1, h2, h3, h4⟩

/-- Once a bid record is marked distributed, later settlement steps keep it
distributed. -/
theorem distributeStep_mono {cfg : Config} {snaps rpts : List Nat}
    {st : RoundStorage} {msgs : List CosmosMsg} {idx : Nat}
    {st2 : RoundStorage} {msgs2 : List CosmosMsg} (i : Nat)
    (hprev : ∃ b, mapGet st.bids i = some b ∧ b.is_distributed = true)
    (h : distributeStep cfg snaps rpts (st, msgs) idx = some (st2, msgs2)) :
    ∃ b, mapGet st2.bids i = some b ∧ b.is_distributed = true := by
  rcases distributeStep_ok_cases h with
    ⟨bid, -, -, rfl, -⟩ |
    ⟨bid, rpt, snap, hbid, -, -, -, -, -, -, hst2, -⟩
  · exact hprev
  · subst hst2
    by_cases hii : i = idx
    · subst hii
      exact ⟨_, mapGet_set_self _ _ _, rfl⟩
    · obtain ⟨b, hb, hbd⟩ := hprev
      refine ⟨b, ?_, hbd⟩
      show mapGet (mapSet st.bids idx _) i = some b
      rw [mapGet_set_ne _ _ hii]
      exact hb

theorem distributeLoop_mono {cfg : Config} {snaps rpts : List Nat} :
    ∀ (L : List Nat) (st : RoundStorage) (msgs : List CosmosMsg)
      (st2 : RoundStorage) (msgs2 : List CosmosMsg) (i : Nat),
      (∃ b, mapGet st.bids i = some b ∧ b.is_distributed = true) →
      distributeLoop cfg snaps rpts L (st, msgs) = some (st2, msgs2) →
      ∃ b, mapGet st2.bids i = some b ∧ b.is_distributed = true := by
  intro L
  induction L with
  | nil =>
    intro st msgs st2 msgs2 i hprev h
    simp only [distributeLoop, Option.some.injEq, Prod.mk.injEq] at h
    obtain ⟨rfl, rfl⟩ := h
    exact hprev
  | cons idx rest ih =>
    intro st msgs st2 msgs2 i hprev h
    simp only [distributeLoop] at h
    split at h
    · simp at h
    · rename_i acc2 hstep
      obtain ⟨stm, msgsm⟩ := acc2
      exact ih stm msgsm st2 msgs2 i (distributeStep_mono i hprev hstep) h

/-- After a successful settlement pass, every bid index of the page is marked
distributed. -/
theorem distributeLoop_all_distributed {cfg : Config} {snaps rpts : List Nat} :
    ∀ (L : List Nat) (st : RoundStorage) (msgs : List CosmosMsg)
      (st2 : RoundStorage) (msgs2 : List CosmosMsg),
      distributeLoop cfg snaps rpts L (st, msgs) = some (st2, msgs2) →
      ∀ i ∈ L, ∃ b, mapGet st2.bids i = some b ∧ b.is_distributed = true := by
  intro L
  induction L with
  | nil =>
    intro st msgs st2 msgs2 h i hi
    simp at hi
  | cons idx rest ih =>
    intro st msgs st2 msgs2 h i hi
    simp only [distributeLoop] at h
    split at h
    · simp at h
    · rename_i acc2 hstep
      obtain ⟨stm, msgsm⟩ := acc2
      rcases List.mem_cons.mp hi with rfl | hi'
      · have hstep_dist : ∃ b, mapGet stm.bids i = some b ∧ b.is_distributed = true := by
          rcases distributeStep_ok_cases hstep with
            ⟨bid, hbid, hdist, rfl, -⟩ |
            ⟨bid, rpt, snap, hbid, -, -, -, -, -, -, hst2, -⟩
          · exact ⟨bid, hbid, hdist⟩
          · subst hst2
            exact ⟨_, mapGet_set_self _ _ _, rfl⟩
        exact distributeLoop_mono rest stm msgsm st2 msgs2 i hstep_dist h
      · exact ih stm msgsm st2 msgs2 h i hi'

/-- If every bid index of the page is already distributed, the settlement
pass is a no-op that emits nothing. -/
theorem distributeLoop_skip_all {cfg : Config} {snaps rpts : List Nat} :
    ∀ (L : List Nat) (st : RoundStorage) (msgs : List CosmosMsg),
      (∀ i ∈ L, ∃ b, mapGet st.bids i = some b ∧ b.is_distributed = true) →
      distributeLoop cfg snaps rpts L (st, msgs) = some (st, msgs) := by
  intro L
  induction L with
  | nil =>
    intro st msgs _
    rfl
  | cons idx rest ih =>
    intro st msgs hall
    obtain ⟨b, hb, hbd⟩ := hall idx (List.mem_cons_self _ _)
    have hstep : distributeStep cfg snaps rpts (st, msgs) idx = some (st, msgs) := by
      simp [distributeStep, hb, hbd]
    simp only [distributeLoop]
    rw [hstep]
    exact ih st msgs (fun i hi => hall i (List.mem_cons_of_mem _ hi))

/-- **C5.** Settlement idempotence: running `execute_distribute` a second
time over the same round and the same cursor/limit range, after a first
successful run settled those bids, leaves every bid record and the round's
`num_bids_distributed` counter identical (the second run returns the very
same state) and emits no transfer instructions. -/
theorem C5_distribute_idempotent (cfg : Config) (st : RoundStorage)
    (start_after limit : Option Nat) (st2 : RoundStorage) (msgs : List CosmosMsg)
    (h : execute_distribute cfg st start_after limit = some (st2, msgs)) :
    execute_distribute cfg st2 start_after limit = some (st2, []) := by
  unfold execute_distribute at h ⊢
  split at h
  · simp at h
  · rename_i hrel
    obtain ⟨hbr, hbp, hbi, hrl⟩ := distributeLoop_preserves _ st [] st2 msgs h
    rw [if_neg (by rw [hrl]; exact hrel)]
    rw [hbr, hbp]
    exact distributeLoop_skip_all _ st2 []
      (distributeLoop_all_distributed _ st [] st2 msgs h)

/-- Witness for C5: a released round with one unsettled bid; the first run
settles it and pays 5 distribution tokens, the second run changes nothing
and emits nothing. -/
theorem C5_distribute_idempotent_witness :
    execute_distribute
      ⟨"owner", .native "orai", .native "usdt", 1, 10 ^ 16, 1, "treasury", 1⟩
      ⟨⟨1, 0, 10, 100, 0⟩, ⟨20, 10 ^ 16, true, 11, 0⟩,
        [(1, ⟨1, 100, 10 ^ 16, DEC, 5 * 10 ^ 16⟩)],
        [(1, ⟨1, 1, 1, 5, "alice", 100, 100, 0, false⟩)], [1]⟩
      none none =
      some (⟨⟨1, 0, 10, 100, 0⟩, ⟨20, 10 ^ 16, true, 11, 1⟩,
        [(1, ⟨1, 100, 10 ^ 16, DEC, 5 * 10 ^ 16⟩)],
        [(1, ⟨1, 1, 1, 5, "alice", 100, 0, 5, true⟩)], [1]⟩,
        [.bankSend "usdt" "alice" 5]) ∧
    execute_distribute
      ⟨"owner", .native "orai", .native "usdt", 1, 10 ^ 16, 1, "treasury", 1⟩
      ⟨⟨1, 0, 10, 100, 0⟩, ⟨20, 10 ^ 16, true, 11, 1⟩,
        [(1, ⟨1, 100, 10 ^ 16, DEC, 5 * 10 ^ 16⟩)],
        [(1, ⟨1, 1, 1, 5, "alice", 100, 0, 5, true⟩)], [1]⟩
      none none =
      some (⟨⟨1, 0, 10, 100, 0⟩, ⟨20, 10 ^ 16, true, 11, 1⟩,
        [(1, ⟨1, 100, 10 ^ 16, DEC, 5 * 10 ^ 16⟩)],
        [(1, ⟨1, 1, 1, 5, "alice", 100, 0, 5, true⟩)], [1]⟩, []) :=
  ⟨by rfl,
    C5_distribute_idempotent
      ⟨"owner", .native "orai", .native "usdt", 1, 10 ^ 16, 1, "treasury", 1⟩
      ⟨⟨1, 0, 10, 100, 0⟩, ⟨20, 10 ^ 16, true, 11, 0⟩,
        [(1, ⟨1, 100, 10 ^ 16, DEC, 5 * 10 ^ 16⟩)],
        [(1, ⟨1, 1, 1, 5, "alice", 100, 100, 0, false⟩)], [1]⟩
      none none
      ⟨⟨1, 0, 10, 100, 0⟩, ⟨20, 10 ^ 16, true, 11, 1⟩,
        [(1, ⟨1, 100, 10 ^ 16, DEC, 5 * 10 ^ 16⟩)],
        [(1, ⟨1, 1, 1, 5, "alice", 100, 0, 5, true⟩)], [1]⟩
      [.bankSend "usdt" "alice" 5] (by rfl)⟩

/-- Relation between the original bid map and an evolved one during a
settlement pass: each record is either untouched, or settled with a residue
no larger than the original deposit. -/
def ResidueInv (st0 st : RoundStorage) : Prop :=
  ∀ i, mapGet st.bids i = mapGet st0.bids i ∨
    (∃ b0 b1, mapGet st0.bids i = some b0 ∧ mapGet st.bids i = some b1 ∧
      b1.is_distributed = true ∧ b1.residue_bid ≤ b0.amount)

theorem distributeStep_residue {cfg : Config} {snaps rpts : List Nat}
    {st0 st : RoundStorage} {msgs : List CosmosMsg} {idx : Nat}
    {st2 : RoundStorage} {msgs2 : List CosmosMsg}
    (hinv : ResidueInv st0 st)
    (h : distributeStep cfg snaps rpts (st, msgs) idx = some (st2, msgs2)) :
    ResidueInv st0 st2 := by
  rcases distributeStep_ok_cases h with
    ⟨bid, -, -, rfl, -⟩ |
    ⟨bid, rpt, snap, hbid, hnd, -, -, -, hle, -, hst2, -⟩
  · exact hinv
  · subst hst2
    intro i
    by_cases hii : i = idx
    · subst hii
      right
      have hb0 : mapGet st0.bids i = some bid := by
        rcases hinv i with heq | ⟨b0, b1, hb0, hb1, hbd, -⟩
        · rw [← heq]
          exact hbid
        · rw [hbid] at hb1
          injection hb1 with hb1'
          rw [← hb1'] at hbd
          rw [hnd] at hbd
          exact absurd hbd (by simp)
      refine ⟨bid,
        { bid with amount_received := bid.amount * rpt / DEC,
                   residue_bid := bid.amount * (DEC - snap) / DEC,
                   is_distributed := true }, hb0, ?_, rfl, ?_⟩
      · show mapGet (mapSet st.bids i _) i = some _
        exact mapGet_set_self _ _ _
      · show bid.amount * (DEC - snap) / DEC ≤ bid.amount
        calc bid.amount * (DEC - snap) / DEC
            ≤ bid.amount * DEC / DEC :=
              Nat.div_le_div_right (Nat.mul_le_mul_left _ (Nat.sub_le _ _))
          _ = bid.amount := Nat.mul_div_cancel _ DEC_pos
    · have hget : mapGet (mapSet st.bids idx
          { bid with amount_received := bid.amount * rpt / DEC,
                     residue_bid := bid.amount * (DEC - snap) / DEC,
                     is_distributed := true }) i = mapGet st.bids i :=
        mapGet_set_ne _ _ hii
      rcases hinv i with heq | ⟨b0, b1, hb0, hb1, hbd, hres⟩
      · left
        show mapGet (mapSet st.bids idx _) i = mapGet st0.bids i
        rw [hget]
        exact heq
      · right
        refine ⟨b0, b1, hb0, ?_, hbd, hres⟩
        show mapGet (mapSet st.bids idx _) i = some b1
        rw [hget]
        exact hb1

theorem distributeLoop_residue {cfg : Config} {snaps rpts : List Nat} :
    ∀ (L : List Nat) (st0 st : RoundStorage) (msgs : List CosmosMsg)
      (st2 : RoundStorage) (msgs2 : List CosmosMsg),
      ResidueInv st0 st →
      distributeLoop cfg snaps rpts L (st, msgs) = some (st2, msgs2) →
      ResidueInv st0 st2 := by
  intro L
  induction L with
  | nil =>
    intro st0 st msgs st2 msgs2 hinv h
    simp only [distributeLoop, Option.some.injEq, Prod.mk.injEq] at h
    obtain ⟨rfl, rfl⟩ := h
    exact hinv
  | cons idx rest ih =>
    intro st0 st msgs st2 msgs2 hinv h
    simp only [distributeLoop] at h
    split at h
    · simp at h
    · rename_i acc2 hstep
      obtain ⟨stm, msgsm⟩ := acc2
      exact ih st0 stm msgsm st2 msgs2 (distributeStep_residue hinv hstep) h

/-- **C10.** Every fill ratio (`index_snapshot`) written by
`process_calc_distribution_amount` lies in `[0, 1]` (at most `DEC` atomics;
the lower bound is inherent to the unsigned representation), because the
actual amount is the minimum of the desired amount and the remaining budget;
consequently, for every bid settled by `execute_distribute`, the refunded
`residue_bid = amount * (1 - index_snapshot)` never exceeds the bid's
original deposited amount. -/
theorem C10_ratio_bounds_and_residue :
    (∀ (pools : List BidPool) (dist rate : Nat) (ps : List BidPool) (b m : Nat),
      (∀ p ∈ pools, p.index_snapshot ≤ DEC) →
      process_calc_distribution_amount pools dist rate = .ok (ps, b, m) →
      ∀ p ∈ ps, p.index_snapshot ≤ DEC) ∧
    (∀ (cfg : Config) (st : RoundStorage) (start_after limit : Option Nat)
        (st2 : RoundStorage) (msgs : List CosmosMsg) (i : Nat) (b0 b1 : Bid),
      execute_distribute cfg st start_after limit = some (st2, msgs) →
      mapGet st.bids i = some b0 → b0.is_distributed = false →
      mapGet st2.bids i = some b1 → b1.is_distributed = true →
      b1.residue_bid ≤ b0.amount) := by
  constructor
  · intro pools dist rate ps b m hle hok
    exact processPools_snap_le pools dist 0 ps b m hle hok
  · intro cfg st a l st2 msgs i b0 b1 hrun hb0 hnd hb1 hbd
    unfold execute_distribute at hrun
    split at hrun
    · simp at hrun
    · have hinv2 := distributeLoop_residue _ st st [] st2 msgs
        (fun _ => Or.inl rfl) hrun
      rcases hinv2 i with heq | ⟨c0, c1, hc0, hc1, hcd, hres⟩
      · rw [heq, hb0] at hb1
        injection hb1 with hb1'
        rw [hb1'] at hnd
        rw [hnd] at hbd
        exact absurd hbd (by simp)
      · rw [hb0] at hc0
        injection hc0 with hc0'
        rw [hb1] at hc1
        injection hc1 with hc1'
        rw [hc0', hc1']
        exact hres

/-- Witness for C10: the boundary scenario's output ratios are bounded by
`DEC`, and the settled bid of the C5 scenario refunds 0 of its 100-unit
deposit. -/
theorem C10_ratio_bounds_and_residue_witness :
    (∀ p ∈ [(⟨10, 1000, 10 ^ 17, DEC, 11 * 10 ^ 15⟩ : BidPool),
        ⟨20, 1000, 2 * 10 ^ 17, 75 * 10 ^ 16, 9 * 10 ^ 15⟩],
      p.index_snapshot ≤ DEC) ∧
    ((⟨1, 1, 1, 5, "alice", 100, 0, 5, true⟩ : Bid).residue_bid ≤
      (⟨1, 1, 1, 5, "alice", 100, 100, 0, false⟩ : Bid).amount) :=
  ⟨C10_ratio_bounds_and_residue.1
      [⟨10, 1000, 10 ^ 17, 0, 0⟩, ⟨20, 1000, 2 * 10 ^ 17, 0, 0⟩] 20 (10 ^ 16)
      [⟨10, 1000, 10 ^ 17, DEC, 11 * 10 ^ 15⟩,
       ⟨20, 1000, 2 * 10 ^ 17, 75 * 10 ^ 16, 9 * 10 ^ 15⟩] 0 1750
      (by decide) (by rfl),
    C10_ratio_bounds_and_residue.2
      ⟨"owner", .native "orai", .native "usdt", 1, 10 ^ 16, 1, "treasury", 1⟩
      ⟨⟨1, 0, 10, 100, 0⟩, ⟨20, 10 ^ 16, true, 11, 0⟩,
        [(1, ⟨1, 100, 10 ^ 16, DEC, 5 * 10 ^ 16⟩)],
        [(1, ⟨1, 1, 1, 5, "alice", 100, 100, 0, false⟩)], [1]⟩
      none none
      ⟨⟨1, 0, 10, 100, 0⟩, ⟨20, 10 ^ 16, true, 11, 1⟩,
        [(1, ⟨1, 100, 10 ^ 16, DEC, 5 * 10 ^ 16⟩)],
        [(1, ⟨1, 1, 1, 5, "alice", 100, 0, 5, true⟩)], [1]⟩
      [.bankSend "usdt" "alice" 5] 1
      ⟨1, 1, 1, 5, "alice", 100, 100, 0, false⟩
      ⟨1, 1, 1, 5, "alice", 100, 0, 5, true⟩
      (by rfl) (by rfl) (by rfl) (by rfl) (by rfl)⟩

/-- **C8 counterexample.** With stored ids `1 < 2 < 3` and cursor 2,
descending order (`order_by = Some 2`) returns `[3]`: the cursor still acts
as an exclusive *lower* bound, because `cw_storage_plus::keys(store, min,
max, order)` interprets the start bound as the minimum bound for both
iteration orders.  The returned id 3 is strictly greater, not less, than the
cursor, refuting the claim's descending-order clause. -/
theorem C8_counterexample :
    read_bids_by_round [1, 2, 3] (some 2) none (some 2) = [3] ∧
    ¬(∀ idx ∈ read_bids_by_round [1, 2, 3] (some 2) none (some 2), idx < 2) :=
  ⟨by rfl, by decide⟩

/-- **C8 (amended).** `read_bids_by_round` treats the cursor as an exclusive
*lower* bound in both orders: every returned id is strictly greater than the
supplied cursor (descending order merely enumerates the qualifying ids from
the largest downwards), and the number of returned ids is capped by the hard
maximum 1000 independent of the caller-supplied limit. -/
theorem C8_cursor_and_cap (ids : List Nat)
    (start_after limit order_by : Option Nat) :
    (∀ c, start_after = some c →
      ∀ idx ∈ read_bids_by_round ids start_after limit order_by, c < idx) ∧
    (read_bids_by_round ids start_after limit order_by).length ≤ 1000 := by
  constructor
  · intro c hc idx hidx
    subst hc
    simp only [read_bids_by_round] at hidx
    have hmem : idx ∈ ids.filter fun i => decide (c < i) := by
      split at hidx
      · exact List.mem_reverse.mp (List.take_subset _ _ hidx)
      · exact List.take_subset _ _ hidx
    have := List.mem_filter.mp hmem
    exact of_decide_eq_true this.2
  · simp only [read_bids_by_round]
    split
    · calc (List.take (min ((limit.getD 30)) 1000) _).length
          ≤ min ((limit.getD 30)) 1000 := by
            rw [List.length_take]
            exact Nat.min_le_left _ _
        _ ≤ 1000 := Nat.min_le_right _ _
    · calc (List.take (min ((limit.getD 30)) 1000) _).length
          ≤ min ((limit.getD 30)) 1000 := by
            rw [List.length_take]
            exact Nat.min_le_left _ _
        _ ≤ 1000 := Nat.min_le_right _ _

/-- Witness for C8 (amended): with cursor 2 the descending page `[3]`
satisfies `2 < 3`, and its length is within the cap. -/
theorem C8_cursor_and_cap_witness :
    2 < 3 ∧ (read_bids_by_round [1, 2, 3] (some 2) none (some 2)).length ≤ 1000 :=
  ⟨(C8_cursor_and_cap [1, 2, 3] (some 2) none (some 2)).1 2 rfl 3 (by decide),
    (C8_cursor_and_cap [1, 2, 3] (some 2) none (some 2)).2⟩

/-- Whether the loop body would settle the bid stored under `i`: the bid
exists and is not yet distributed. -/
def needsSettle (bids : List (Nat × Bid)) (i : Nat) : Bool :=
  match mapGet bids i with
  | some b => !b.is_distributed
  | none => false

/-- The instructions one settlement iteration emits for a bid, restated
per bid: the reward in the distribution token and the residual refund in the
underlying token, each present only when its amount is nonzero. -/
def bidMsgs (cfg : Config) (snaps rpts : List Nat) (bid : Bid) : List CosmosMsg :=
  match rpts.get? bid.premium_slot, snaps.get? bid.premium_slot with
  | some rpt, some snap =>
    (if 0 < bid.amount * rpt / DEC then
      [into_cosmos_msg cfg.distribution_token bid.bidder (bid.amount * rpt / DEC)]
    else []) ++
    (if 0 < bid.amount * (DEC - snap) / DEC then
      [into_cosmos_msg cfg.underlying_token bid.bidder
        (bid.amount * (DEC - snap) / DEC)]
    else [])
  | _, _ => []

/-- The instructions the loop emits for page index `i`, read off the
original bid map: nothing for a missing or already-distributed bid. -/
def emFor (cfg : Config) (snaps rpts : List Nat) (bids : List (Nat × Bid))
    (i : Nat) : List CosmosMsg :=
  match mapGet bids i with
  | some b => if b.is_distributed then [] else bidMsgs cfg snaps rpts b
  | none => []

/-- Master accounting lemma for the settlement loop over a duplicate-free
page: per-bid settled records, counter increment, emitted instructions, and
the frame condition for indexes outside the page. -/
theorem distributeLoop_master {cfg : Config} {snaps rpts : List Nat}
    (st0 : RoundStorage) :
    ∀ (L : List Nat) (st : RoundStorage) (macc : List CosmosMsg)
      (st2 : RoundStorage) (msgs2 : List CosmosMsg),
      L.Nodup →
      (∀ i ∈ L, mapGet st.bids i = mapGet st0.bids i) →
      distributeLoop cfg snaps rpts L (st, macc) = some (st2, msgs2) →
      (∀ i ∈ L, ∀ bid, mapGet st0.bids i = some bid →
        bid.is_distributed = false →
        ∃ rpt snap, rpts.get? bid.premium_slot = some rpt ∧
          snaps.get? bid.premium_slot = some snap ∧
          mapGet st2.bids i = some
            { bid with amount_received := bid.amount * rpt / DEC,
                       residue_bid := bid.amount * (DEC - snap) / DEC,
                       is_distributed := true }) ∧
      st2.distInfo.num_bids_distributed =
        st.distInfo.num_bids_distributed + L.countP (needsSettle st0.bids) ∧
      msgs2 = macc ++ L.flatMap (emFor cfg snaps rpts st0.bids) ∧
      (∀ i, i ∉ L → mapGet st2.bids i = mapGet st.bids i) := by
  intro L
  induction L with
  | nil =>
    intro st macc st2 msgs2 _ _ h
    simp only [distributeLoop, Option.some.injEq, Prod.mk.injEq] at h
    obtain ⟨rfl, rfl⟩ := h
    exact ⟨by simp, by simp, by simp, fun i _ => rfl⟩
  | cons idx rest ih =>
    intro st macc st2 msgs2 hnd hsame h
    simp only [distributeLoop] at h
    split at h
    · simp at h
    · rename_i acc2 hstep
      obtain ⟨stm, msgsm⟩ := acc2
      have hnd_rest : rest.Nodup := (List.nodup_cons.mp hnd).2
      have hidx_not : idx ∉ rest := (List.nodup_cons.mp hnd).1
      have hsame_idx : mapGet st.bids idx = mapGet st0.bids idx :=
        hsame idx (List.mem_cons_self _ _)
      rcases distributeStep_ok_cases hstep with
        ⟨bid, hbid, hdist, hstm, hmsgm⟩ |
        ⟨bid, rpt, snap, hbid, hnd2, hrpt, hsnap, hov1, hle, hov2, hst2, hmsg2⟩
      · -- the bid at `idx` is already distributed: the step is a no-op
        subst hstm hmsgm
        obtain ⟨ha, hb, hc, hd⟩ := ih _ _ _ _ hnd_rest
          (fun i hi => hsame i (List.mem_cons_of_mem _ hi)) h
        have hget0 : mapGet st0.bids idx = some bid := by
          rw [← hsame_idx]
          exact hbid
        have hns : needsSettle st0.bids idx = false := by
          unfold needsSettle
          rw [hget0]
          show (!bid.is_distributed) = false
          simp [hdist]
        have hem : emFor cfg snaps rpts st0.bids idx = [] := by
          unfold emFor
          rw [hget0]
          show (if bid.is_distributed = true then []
            else bidMsgs cfg snaps rpts bid) = []
          rw [hdist]
          simp
        refine ⟨?_, ?_, ?_, ?_⟩
        · intro i hi bid0 hbid0 hnd0
          rcases List.mem_cons.mp hi with rfl | hi'
          · rw [hget0] at hbid0
            injection hbid0 with hbid0'
            rw [← hbid0'] at hnd0
            rw [hdist] at hnd0
            exact absurd hnd0 (by simp)
          · exact ha i hi' bid0 hbid0 hnd0
        · rw [hb, List.countP_cons, hns]
          simp
        · rw [hc, List.flatMap_cons, hem]
          simp
        · intro i hi
          exact hd i (fun hi' => hi (List.mem_cons_of_mem _ hi'))
      · -- the bid at `idx` is settled and written back
        have hnum : stm.distInfo.num_bids_distributed =
            st.distInfo.num_bids_distributed + 1 := by
          rw [hst2]
        have hbids : stm.bids = mapSet st.bids idx
            { bid with amount_received := bid.amount * rpt / DEC,
                       residue_bid := bid.amount * (DEC - snap) / DEC,
                       is_distributed := true } := by
          rw [hst2]
        have hget0 : mapGet st0.bids idx = some bid := by
          rw [← hsame_idx]
          exact hbid
        have hsame_rest : ∀ i ∈ rest, mapGet stm.bids i = mapGet st0.bids i := by
          intro i hi
          have hne : i ≠ idx := fun hEq => hidx_not (hEq ▸ hi)
          rw [hbids, mapGet_set_ne _ _ hne]
          exact hsame i (List.mem_cons_of_mem _ hi)
        obtain ⟨ha, hb, hc, hd⟩ := ih _ _ _ _ hnd_rest hsame_rest h
        have hns : needsSettle st0.bids idx = true := by
          unfold needsSettle
          rw [hget0]
          show (!bid.is_distributed) = true
          simp [hnd2]
        have hem : emFor cfg snaps rpts st0.bids idx =
            (if 0 < bid.amount * rpt / DEC then
              [into_cosmos_msg cfg.distribution_token bid.bidder
                (bid.amount * rpt / DEC)]
            else []) ++
            (if 0 < bid.amount * (DEC - snap) / DEC then
              [into_cosmos_msg cfg.underlying_token bid.bidder
                (bid.amount * (DEC - snap) / DEC)]
            else []) := by
          unfold emFor
          rw [hget0]
          show (if bid.is_distributed = true then []
            else bidMsgs cfg snaps rpts bid) = _
          rw [if_neg (by rw [hnd2]; simp)]
          unfold bidMsgs
          rw [hrpt, hsnap]
        refine ⟨?_, ?_, ?_, ?_⟩
        · intro i hi bid0 hbid0 hnd0
          rcases List.mem_cons.mp hi with rfl | hi'
          · rw [hget0] at hbid0
            injection hbid0 with hbid0'
            subst hbid0'
            refine ⟨rpt, snap, hrpt, hsnap, ?_⟩
            rw [hd i hidx_not, hbids]
            exact mapGet_set_self _ _ _
          · exact ha i hi' bid0 hbid0 hnd0
        · have h1 : (if needsSettle st0.bids idx = true then 1 else 0) = 1 := by
            simp [hns]
          rw [hb, hnum, List.countP_cons, h1]
          omega
        · rw [hc, hmsg2, List.flatMap_cons, hem]
          simp [List.append_assoc]
        · intro i hi
          have hne : i ≠ idx := fun hEq => hi (hEq ▸ List.mem_cons_self _ _)
          rw [hd i (fun hi' => hi (List.mem_cons_of_mem _ hi')), hbids,
            mapGet_set_ne _ _ hne]

theorem snapVec_get {pools : List (Nat × BidPool)} {maxSlot slot : Nat}
    {bp : BidPool} (h0 : slot ≠ 0) (hle : slot ≤ maxSlot)
    (hbp : mapGet pools slot = some bp) :
    (snapVec pools maxSlot).get? slot = some bp.index_snapshot := by
  unfold snapVec
  rw [List.get?_eq_getElem?, List.getElem?_map, List.getElem?_range (by omega)]
  simp [h0, hbp]

theorem rptVec_get {pools : List (Nat × BidPool)} {maxSlot slot : Nat}
    {bp : BidPool} (h0 : slot ≠ 0) (hle : slot ≤ maxSlot)
    (hbp : mapGet pools slot = some bp) :
    (rptVec pools maxSlot).get? slot = some bp.received_per_token := by
  unfold rptVec
  rw [List.get?_eq_getElem?, List.getElem?_map, List.getElem?_range (by omega)]
  simp [h0, hbp]

/-- **C6.** For each not-yet-distributed bid in the processed page (a
duplicate-free key range), `execute_distribute` computes
`amount_received = bid.amount × received_per_token` and
`residue_bid = bid.amount × (1 − index_snapshot)` from the bid's slot's
frozen pool values, writes both onto the bid together with
`is_distributed = true`; the round's settled counter is incremented by one
per such bid; and the emitted instructions are exactly the concatenation,
over the page in order, of each bid's reward instruction in the distribution
token and residual refund instruction in the underlying token, each present
only when its amount is nonzero (`emFor`/`bidMsgs` restate the loop body's
per-bid emissions). -/
theorem C6_settlement_per_bid (cfg : Config) (st : RoundStorage)
    (start_after limit : Option Nat) (st2 : RoundStorage)
    (msgs : List CosmosMsg)
    (hrun : execute_distribute cfg st start_after limit = some (st2, msgs))
    (hnd : (read_bids_by_round st.bidsByRound start_after limit none).Nodup) :
    (∀ i ∈ read_bids_by_round st.bidsByRound start_after limit none,
      ∀ bid bp, mapGet st.bids i = some bid → bid.is_distributed = false →
        bid.premium_slot ≠ 0 → bid.premium_slot ≤ cfg.max_slot →
        mapGet st.bidPools bid.premium_slot = some bp →
        mapGet st2.bids i = some
          { bid with
              amount_received := bid.amount * bp.received_per_token / DEC,
              residue_bid := bid.amount * (DEC - bp.index_snapshot) / DEC,
              is_distributed := true }) ∧
    st2.distInfo.num_bids_distributed =
      st.distInfo.num_bids_distributed +
        (read_bids_by_round st.bidsByRound start_after limit none).countP
          (needsSettle st.bids) ∧
    msgs = (read_bids_by_round st.bidsByRound start_after limit none).flatMap
        (emFor cfg (snapVec st.bidPools cfg.max_slot)
          (rptVec st.bidPools cfg.max_slot) st.bids) := by
  unfold execute_distribute at hrun
  split at hrun
  · simp at hrun
  · obtain ⟨ha, hb, hc, -⟩ :=
      distributeLoop_master st _ st [] st2 msgs hnd (fun _ _ => rfl) hrun
    refine ⟨?_, hb, by simpa using hc⟩
    intro i hi bid bp hbid hndist hs0 hsle hbp
    obtain ⟨rpt, snap, hrpt, hsnap, hres⟩ := ha i hi bid hbid hndist
    rw [rptVec_get hs0 hsle hbp] at hrpt
    rw [snapVec_get hs0 hsle hbp] at hsnap
    injection hrpt with hrpt'
    injection hsnap with hsnap'
    rw [hrpt', hsnap']
    exact hres

/-- Witness for C6: a released round with one unsettled bid (amount 100,
slot 1, pool ratio 1, payout rate 0.05): the run writes the settled record,
bumps the counter to 1, and emits exactly the 5-unit reward. -/
theorem C6_settlement_per_bid_witness :
    execute_distribute
      ⟨"owner", .native "orai", .native "usdt", 1, 10 ^ 16, 1, "treasury", 1⟩
      ⟨⟨1, 0, 10, 100, 0⟩, ⟨20, 10 ^ 16, true, 11, 0⟩,
        [(1, ⟨1, 100, 10 ^ 16, DEC, 5 * 10 ^ 16⟩)],
        [(1, ⟨1, 1, 1, 5, "alice", 100, 100, 0, false⟩)], [1]⟩
      none none =
      some (⟨⟨1, 0, 10, 100, 0⟩, ⟨20, 10 ^ 16, true, 11, 1⟩,
        [(1, ⟨1, 100, 10 ^ 16, DEC, 5 * 10 ^ 16⟩)],
        [(1, ⟨1, 1, 1, 5, "alice", 100, 0, 5, true⟩)], [1]⟩,
        [.bankSend "usdt" "alice" 5]) ∧
    (read_bids_by_round [1] none none none).Nodup ∧
    ((∀ i ∈ read_bids_by_round [1] none none none,
      ∀ bid bp,
        mapGet [(1, (⟨1, 1, 1, 5, "alice", 100, 100, 0, false⟩ : Bid))] i =
          some bid →
        bid.is_distributed = false →
        bid.premium_slot ≠ 0 → bid.premium_slot ≤ 1 →
        mapGet [(1, (⟨1, 100, 10 ^ 16, DEC, 5 * 10 ^ 16⟩ : BidPool))]
          bid.premium_slot = some bp →
        mapGet [(1, (⟨1, 1, 1, 5, "alice", 100, 0, 5, true⟩ : Bid))] i = some
          { bid with
              amount_received := bid.amount * bp.received_per_token / DEC,
              residue_bid := bid.amount * (DEC - bp.index_snapshot) / DEC,
              is_distributed := true }) ∧
    (1 : Nat) = 0 + (read_bids_by_round [1] none none none).countP
        (needsSettle [(1, ⟨1, 1, 1, 5, "alice", 100, 100, 0, false⟩)]) ∧
    [CosmosMsg.bankSend "usdt" "alice" 5] =
      (read_bids_by_round [1] none none none).flatMap
        (emFor ⟨"owner", .native "orai", .native "usdt", 1, 10 ^ 16, 1,
            "treasury", 1⟩
          (snapVec [(1, ⟨1, 100, 10 ^ 16, DEC, 5 * 10 ^ 16⟩)] 1)
          (rptVec [(1, ⟨1, 100, 10 ^ 16, DEC, 5 * 10 ^ 16⟩)] 1)
          [(1, ⟨1, 1, 1, 5, "alice", 100, 100, 0, false⟩)])) :=
  ⟨by rfl, by decide,
    C6_settlement_per_bid
      ⟨"owner", .native "orai", .native "usdt", 1, 10 ^ 16, 1, "treasury", 1⟩
      ⟨⟨1, 0, 10, 100, 0⟩, ⟨20, 10 ^ 16, true, 11, 0⟩,
        [(1, ⟨1, 100, 10 ^ 16, DEC, 5 * 10 ^ 16⟩)],
        [(1, ⟨1, 1, 1, 5, "alice", 100, 100, 0, false⟩)], [1]⟩
      none none
      ⟨⟨1, 0, 10, 100, 0⟩, ⟨20, 10 ^ 16, true, 11, 1⟩,
        [(1, ⟨1, 100, 10 ^ 16, DEC, 5 * 10 ^ 16⟩)],
        [(1, ⟨1, 1, 1, 5, "alice", 100, 0, 5, true⟩)], [1]⟩
      [.bankSend "usdt" "alice" 5] (by rfl) (by decide)⟩

/-- `state.rs` `BiddingInfo::read_all_bid_pool`: the round's pools for slots
`1..=max_slot` in ascending slot order; a missing pool is synthesized with
zero totals and `premium_rate = premium_rate_per_slot *
Decimal::from_atomics(slot, 0)`, i.e. atomics
`premium_rate_per_slot * (slot * 10^18) / 10^18`.  (The `Decimal`
multiplication's overflow panic cannot fire for slots up to 255 unless
`premium_rate_per_slot` itself is astronomically large; it is elided here.) -/
def read_all_bid_pool (cfg : Config) (pools : List (Nat × BidPool)) :
    List BidPool :=
  (List.range cfg.max_slot).map fun i =>
    match mapGet pools (i + 1) with
    | some bp => bp
    | none =>
      { slot := i + 1
        total_bid_amount := 0
        premium_rate := cfg.premium_rate_per_slot * ((i + 1) * DEC) / DEC
        index_snapshot := 0
        received_per_token := 0 }

/-- The `ContractError` values the modelled entry points return, plus
`calcPanic e`, which stands for a Rust panic raised inside
`process_calc_distribution_amount`.  A panic aborts the call with no state
change, exactly like a returned error, but is a distinct outcome and is kept
distinguishable here. -/
inductive ContractError where
  | std (msg : String)
  | unauthorized
  | invalidBiddingTimeRange
  | bidNotOpen
  | bidNotEnded
  | calcPanic (e : CalcErr)
deriving DecidableEq, Repr

/-- `execute_finalize_bidding_round_result` (`bid.rs` lines 139-239) on one
round's storage slice.  Guards, in source order: only the owner may call;
the round must have ended (`BiddingInfo::finished`, i.e. `end_time < now`);
an already-released round is rejected with the "has been finalized" error.
Otherwise the exchange rate is stored, the round is marked released, the
allocation pass runs over `read_all_bid_pool`, its results are written back,
and the messages are emitted: burn the total matched amount of the
underlying token, then transfer any remaining distribution budget back to
the owner. -/
def execute_finalize_bidding_round_result (cfg : Config) (now : Nat)
    (sender : String) (round : Nat) (exchange_rate : Nat) (st : RoundStorage) :
    Except ContractError (RoundStorage × List CosmosMsg) :=
  if cfg.owner ≠ sender then .error .unauthorized
  else if ¬ (st.biddingInfo.end_time < now) then .error .bidNotEnded
  else if st.distInfo.is_released then
    .error (.std ("round " ++ toString round ++ " has been finalized"))
  else
    match process_calc_distribution_amount (read_all_bid_pool cfg st.bidPools)
        st.distInfo.total_distribution exchange_rate with
    | .error e => .error (.calcPanic e)
    | .ok (pools2, distribution_amount, total_matched) =>
      .ok ({ st with
              biddingInfo :=
                { st.biddingInfo with total_bid_matched := total_matched }
              distInfo :=
                { st.distInfo with
                    exchange_rate := exchange_rate
                    is_released := true
                    actual_distributed :=
                      st.distInfo.total_distribution - distribution_amount }
              bidPools := pools2.foldl (fun m bp => mapSet m bp.slot bp)
                st.bidPools },
            (match cfg.underlying_token with
              | .native denom => [CosmosMsg.bankBurn denom total_matched]
              | .token contract_addr =>
                  [CosmosMsg.wasmBurn contract_addr total_matched]) ++
            (if distribution_amount ≠ 0 then
              match cfg.distribution_token with
              | .native denom =>
                  [CosmosMsg.bankSend denom cfg.owner distribution_amount]
              | .token contract_addr =>
                  [CosmosMsg.wasmTransfer contract_addr cfg.owner
                    distribution_amount]
            else []))

/-- The transactional view of a call result: a CosmWasm error (or panic)
reverts every write, leaving the pre-call storage untouched. -/
def applyExcept (st : RoundStorage)
    (r : Except ContractError (RoundStorage × List CosmosMsg)) : RoundStorage :=
  match r with
  | .ok (st2, _) => st2
  | .error _ => st

/-- **C7.** Finalize rejection idempotence: once
`execute_finalize_bidding_round_result` has succeeded for a round (which
sets `is_released = true`), every later owner call on that round — at any
not-earlier time, with any exchange rate — fails with the round's "has been
finalized" error, and, the call being aborted, leaves the round's
`DistributionInfo`, `BiddingInfo` and all slot pools unchanged. -/
theorem C7_finalize_rejected_after_release (cfg : Config) (now now2 : Nat)
    (sender : String) (round : Nat) (rate rate2 : Nat)
    (st st1 : RoundStorage) (msgs : List CosmosMsg)
    (h1 : execute_finalize_bidding_round_result cfg now sender round rate st =
      .ok (st1, msgs))
    (hnow : now ≤ now2) :
    execute_finalize_bidding_round_result cfg now2 cfg.owner round rate2 st1 =
      .error (.std ("round " ++ toString round ++ " has been finalized")) ∧
    applyExcept st1
      (execute_finalize_bidding_round_result cfg now2 cfg.owner round rate2 st1)
      = st1 := by
  unfold execute_finalize_bidding_round_result at h1
  split at h1
  · simp at h1
  · rename_i hown
    split at h1
    · simp at h1
    · rename_i hend
      split at h1
      · simp at h1
      · rename_i hrel
        split at h1
        · simp at h1
        · rename_i pools2 da tm hproc
          simp only [Except.ok.injEq, Prod.mk.injEq] at h1
          obtain ⟨rfl, -⟩ := h1
          have hlt : st.biddingInfo.end_time < now2 := by
            have := not_not.mp hend
            omega
          have hE : execute_finalize_bidding_round_result cfg now2 cfg.owner
              round rate2
              { st with
                  biddingInfo :=
                    { st.biddingInfo with total_bid_matched := tm }
                  distInfo :=
                    { st.distInfo with
                        exchange_rate := rate
                        is_released := true
                        actual_distributed :=
                          st.distInfo.total_distribution - da }
                  bidPools := pools2.foldl (fun m bp => mapSet m bp.slot bp)
                    st.bidPools } =
              .error (.std ("round " ++ toString round ++
                " has been finalized")) := by
            unfold execute_finalize_bidding_round_result
            rw [if_neg (by simp)]
            rw [if_neg (by simp only [not_not]; exact hlt)]
            rw [if_pos rfl]
          exact ⟨hE, by rw [hE]; rfl⟩

/-- Witness for C7: a one-slot round with no deposits and budget 5 is
finalized once (burning 0 and refunding the whole budget to the owner); a
second owner call at a later time is rejected with the "has been finalized"
error and changes nothing. -/
theorem C7_finalize_rejected_after_release_witness :
    execute_finalize_bidding_round_result
      ⟨"owner", .native "orai", .native "usdt", 1, 10 ^ 17, 1, "treasury", 1⟩
      11 "owner" 1 (10 ^ 16)
      ⟨⟨1, 0, 10, 0, 0⟩, ⟨5, 0, false, 0, 0⟩, [], [], []⟩ =
      .ok (⟨⟨1, 0, 10, 0, 0⟩, ⟨5, 10 ^ 16, true, 0, 0⟩,
        [(1, ⟨1, 0, 10 ^ 17, 0, 0⟩)], [], []⟩,
        [.bankBurn "orai" 0, .bankSend "usdt" "owner" 5]) ∧
    (11 : Nat) ≤ 12 ∧
    (execute_finalize_bidding_round_result
        ⟨"owner", .native "orai", .native "usdt", 1, 10 ^ 17, 1, "treasury", 1⟩
        12 "owner" 1 (10 ^ 16)
        ⟨⟨1, 0, 10, 0, 0⟩, ⟨5, 10 ^ 16, true, 0, 0⟩,
          [(1, ⟨1, 0, 10 ^ 17, 0, 0⟩)], [], []⟩ =
        .error (.std ("round " ++ toString (1 : Nat) ++
          " has been finalized")) ∧
      applyExcept
        ⟨⟨1, 0, 10, 0, 0⟩, ⟨5, 10 ^ 16, true, 0, 0⟩,
          [(1, ⟨1, 0, 10 ^ 17, 0, 0⟩)], [], []⟩
        (execute_finalize_bidding_round_result
          ⟨"owner", .native "orai", .native "usdt", 1, 10 ^ 17, 1, "treasury", 1⟩
          12 "owner" 1 (10 ^ 16)
          ⟨⟨1, 0, 10, 0, 0⟩, ⟨5, 10 ^ 16, true, 0, 0⟩,
            [(1, ⟨1, 0, 10 ^ 17, 0, 0⟩)], [], []⟩) =
        ⟨⟨1, 0, 10, 0, 0⟩, ⟨5, 10 ^ 16, true, 0, 0⟩,
          [(1, ⟨1, 0, 10 ^ 17, 0, 0⟩)], [], []⟩) :=
  ⟨by rfl, by decide,
    C7_finalize_rejected_after_release
      ⟨"owner", .native "orai", .native "usdt", 1, 10 ^ 17, 1, "treasury", 1⟩
      11 12 "owner" 1 (10 ^ 16) (10 ^ 16)
      ⟨⟨1, 0, 10, 0, 0⟩, ⟨5, 0, false, 0, 0⟩, [], [], []⟩
      ⟨⟨1, 0, 10, 0, 0⟩, ⟨5, 10 ^ 16, true, 0, 0⟩,
        [(1, ⟨1, 0, 10 ^ 17, 0, 0⟩)], [], []⟩
      [.bankBurn "orai" 0, .bankSend "usdt" "owner" 5]
      (by rfl) (by decide)⟩

/-- **C9.** Concrete full-fill and excess-budget scenarios, at the unit
scale of the repository's tests (1 unit = 10^6 base units): 25 slot pools,
each with a 4000-unit (`4000·10^6`) deposit, premium rate k% for slot k,
exchange rate 0.01.  With budget 1130 units every slot's fill ratio is 1
(`DEC`), total matched is 100000 units (`10^11`) and the remaining budget is
0.  With budget 1200 units, finalize leaves total matched unchanged at
100000 units, records `actual_distributed = 1130` units, and emits the burn
of the matched amount followed by a transfer of the 70-unit leftover back to
the owner rather than distributing it. -/
theorem C9_full_fill_and_excess_budget :
    process_calc_distribution_amount
      ((List.range 25).map fun i =>
        ⟨i + 1, 4000000000, (i + 1) * 10 ^ 16, 0, 0⟩)
      1130000000 (10 ^ 16) =
      .ok ((List.range 25).map fun i =>
        ⟨i + 1, 4000000000, (i + 1) * 10 ^ 16, DEC,
          10 ^ 16 + (i + 1) * 10 ^ 14⟩,
        0, 100000000000) ∧
    (execute_finalize_bidding_round_result
        ⟨"owner", .native "orai", .native "usdt", 25, 10 ^ 16, 1, "treasury", 1⟩
        11 "owner" 1 (10 ^ 16)
        ⟨⟨1, 0, 10, 100000000000, 0⟩, ⟨1200000000, 0, false, 0, 0⟩,
          (List.range 25).map fun i =>
            (i + 1, ⟨i + 1, 4000000000, (i + 1) * 10 ^ 16, 0, 0⟩),
          [], []⟩).toOption.map
        (fun r => (r.1.biddingInfo.total_bid_matched,
          r.1.distInfo.actual_distributed, r.2)) =
      some (100000000000, 1130000000,
        [CosmosMsg.bankBurn "orai" 100000000000,
         CosmosMsg.bankSend "usdt" "owner" 70000000]) :=
  ⟨by rfl, by rfl⟩
